import Mathlib

/-!
Verification development for the continuous radio stream backend
(`src/app.py`).  The global mutable `RadioState`, the bounded deques
used for the playlist and the circular audio buffer, the producer loop,
the stop endpoints and the per-listener delivery generator are given a
shallow embedding as pure Lean functions, and the behavioural claims
about them are settled as theorems below.
-/

namespace VirusRadio

/-- Raw audio bytes of one chunk, modelled as a list of byte values. -/
abbrev Chunk := List Nat

/-- `collections.deque(maxlen := cap).append(x)`: append on the right,
evicting elements from the left so that at most `cap` remain. -/
def dequeAppend (cap : Nat) (l : List α) (x : α) : List α :=
  (l ++ [x]).drop (l.length + 1 - cap)

/-- The contents of a bounded deque after appending a whole history of
elements, in order, starting from empty. -/
def appendAll (cap : Nat) (hist : List α) : List α :=
  hist.foldl (dequeAppend cap) []

/-- `audio_chunks: deque = deque(maxlen=500)` — ring buffer capacity. -/
def ringCapacity : Nat := 500

/-- `playlist: deque = deque(maxlen=100)` — playlist queue capacity. -/
def playlistCapacity : Nat := 100

/-- A playlist entry: the track dictionaries built in `add_to_playlist`
and `add_default_songs` (id, title, url; the remaining metadata fields do
not influence control flow). -/
structure Track where
  id : String
  title : String
  url : String
deriving Repr, DecidableEq

/-- Status of the ffmpeg decode subprocess held in `stream_process`. -/
inductive ProcState
  | running
  | terminated
deriving Repr, DecidableEq

/-- The global `RadioState` object of `app.py`, together with the
module-level `streaming_task` (modelled by `task_active`).
`playlist` is a `deque(maxlen=100)`, `audio_chunks` a `deque(maxlen=500)`;
both are lists ordered oldest-first with the deque bound enforced by
`dequeAppend` at each append site. -/
structure RadioState where
  playlist : List Track
  current_track : Option Track
  is_streaming : Bool
  stream_process : Option ProcState
  task_active : Bool
  audio_chunks : List Chunk
  listeners : List Nat
deriving Repr, DecidableEq

/-- One append of a decoded chunk into the circular buffer, as performed
by `stream_audio_to_buffer`: `radio_state.audio_chunks.append(chunk)`. -/
def bufferAppend (buf : List Chunk) (c : Chunk) : List Chunk :=
  dequeAppend ringCapacity buf c

/-- The circular buffer contents once the producer has appended the
first `n` chunks of the overall production history `hist`. -/
def bufferAt (hist : List Chunk) (n : Nat) : List Chunk :=
  appendAll ringCapacity (hist.take n)

/-- `audio_chunks[p]` — fetching the buffer cell at position `p`
(`generate_live_audio` guards this access with `p < len(audio_chunks)`). -/
def bufferGet (buf : List Chunk) (p : Nat) : Option Chunk :=
  buf[p]?

/-- The production sequence number of the chunk sitting at buffer
position `p` when `n` chunks have been appended in total: eviction has
removed the first `n - min n ringCapacity` chunks of the history. -/
def seqOfPos (p n : Nat) : Nat :=
  p + (n - min n ringCapacity)

/-- `Popen.terminate()`: a running process becomes terminated;
terminating an already-ended process is a harmless no-op. -/
def terminate : Option ProcState → Option ProcState
  | none => none
  | some _ => some ProcState.terminated

/-- `stop_continuous_stream`: set `is_streaming = False`, terminate the
decode process if present, cancel the background task, clear
`current_track`, and clear `audio_chunks`. -/
def stop_continuous_stream (s : RadioState) : RadioState :=
  { s with is_streaming := false,
           stream_process := terminate s.stream_process,
           task_active := false,
           current_track := none,
           audio_chunks := [] }

/-- The `POST /api/stop` endpoint `stop_stream`: run
`stop_continuous_stream`, then `radio_state.playlist.clear()`. -/
def stop_stream (s : RadioState) : RadioState :=
  let s1 := stop_continuous_stream s
  { s1 with playlist := [] }

/-- `start_continuous_stream`: if the background task is already
running, do nothing; otherwise clear the old buffer and launch the task. -/
def start_continuous_stream (s : RadioState) : RadioState :=
  if s.task_active then s
  else { s with audio_chunks := [], task_active := true }

/-- The playlist-state effect of the `POST /api/play` endpoint
`add_to_playlist`: append the track to the bounded playlist deque, then
ensure the stream is running. -/
def add_to_playlist (s : RadioState) (t : Track) : RadioState :=
  let s1 := { s with playlist := dequeAppend playlistCapacity s.playlist t }
  if s1.is_streaming then s1 else start_continuous_stream s1

/-- One pass of the try-block body of `continuous_radio_loop`, from the
point where the playlist is inspected.  `resolve` models
`get_audio_stream_multi_source` (every internal failure is caught there
and surfaces as `None`); `decode url` models the chunk output that
`stream_audio_to_buffer` reads from the ffmpeg subprocess for that url
and pushes into the buffer.  On a resolution failure the code logs,
re-appends the track at the back of the playlist and sleeps; no path of
the body raises, hence every branch is `Except.ok`. -/
def radio_loop_body (resolve : String → Option String)
    (decode : String → List Chunk) (s : RadioState) : Except String RadioState :=
  if s.is_streaming = false then Except.ok s
  else
    match s.playlist with
    | [] => Except.ok s
    | track :: rest =>
      let s1 := { s with playlist := rest, current_track := some track }
      match resolve track.url with
      | some url =>
        Except.ok { s1 with
          stream_process := some ProcState.terminated,
          audio_chunks := (decode url).foldl bufferAppend s1.audio_chunks }
      | none =>
        Except.ok { s1 with playlist := dequeAppend playlistCapacity s1.playlist track }

/-- The `try ... except Exception` wrapper around the body of
`continuous_radio_loop`: any error raised by the body is logged and
absorbed, and the loop continues from the unchanged state. -/
def continuous_radio_step (body : RadioState → Except String RadioState)
    (s : RadioState) : RadioState :=
  match body s with
  | Except.ok s1 => s1
  | Except.error _ => s

/-- One observed instant of the shared state, as seen by one iteration
of a listener's delivery loop: the `is_streaming` flag, the total number
`n` of chunks the producer has appended so far, and whether the
`chunk_event` wait timed out on this iteration. -/
structure Snap where
  is_streaming : Bool
  n : Nat
  timed_out : Bool
deriving Repr, DecidableEq

/-- One item yielded by the listener generator: an audio chunk from the
buffer, or the 4096-byte silence filler `b'\x00' * 4096`. -/
inductive StreamOut
  | audio (c : Chunk)
  | silence
deriving Repr, DecidableEq

/-- The `generate_live_audio` delivery loop of the `/api/stream`
endpoint, run over a schedule of observed instants: while
`is_streaming`, deliver `audio_chunks[p]` and advance whenever
`p < len(audio_chunks)`, otherwise wait and yield a silence filler on
timeout; when `is_streaming` is false the loop exits and the generator
ends. -/
def generate_live_audio (hist : List Chunk) : Nat → List Snap → List StreamOut
  | _, [] => []
  | p, snap :: rest =>
    if snap.is_streaming then
      if p < (bufferAt hist snap.n).length then
        StreamOut.audio ((bufferAt hist snap.n).getD p []) ::
          generate_live_audio hist (p + 1) rest
      else if snap.timed_out then
        StreamOut.silence :: generate_live_audio hist p rest
      else
        generate_live_audio hist p rest
    else []

/-- The audio deliveries of `generate_live_audio`, each labelled with
the production sequence number of the buffer cell it reads (silence
fillers carry no buffer data and are omitted). -/
def delivered (hist : List Chunk) : Nat → List Snap → List (Nat × Chunk)
  | _, [] => []
  | p, snap :: rest =>
    if snap.is_streaming then
      if p < (bufferAt hist snap.n).length then
        (seqOfPos p snap.n, (bufferAt hist snap.n).getD p []) ::
          delivered hist (p + 1) rest
      else
        delivered hist p rest
    else []

/-- The initial `buffer_position` chosen on listener connect:
`max(0, len(radio_state.audio_chunks) - 10)`. -/
def joinPosition (bufLen : Nat) : Nat :=
  max 0 (bufLen - 10)

/-- The `/api/stream` endpoint `stream_radio`: the listener id is added
to the listener set unconditionally, before the streaming response is
returned — in every playback phase. -/
def stream_radio (lid : Nat) (s : RadioState) : RadioState :=
  { s with listeners := if lid ∈ s.listeners then s.listeners else lid :: s.listeners }

/-- A production history of 501 pairwise distinct one-byte chunks, one past
the ring capacity, used for concrete counterexamples. -/
def cexHist : List Chunk := (List.range 501).map (fun k => [k])

/-- Listener schedule for the gap counterexample: the listener joins at
position 0, reads once when 500 chunks exist, then once more after one
further append. -/
def cexSnaps : List Snap := [⟨true, 500, false⟩, ⟨true, 501, false⟩]

/-- A concrete track as built by the playlist endpoints. -/
def sampleTrack : Track :=
  { id := "dQw4w9WgXcQ"
    title := "Sample Song"
    url := "https://www.youtube.com/watch?v=dQw4w9WgXcQ" }

/-- A concrete mid-playback state: one queued track, one playing track,
a running decode process, a non-empty buffer and one listener. -/
def sampleState : RadioState :=
  { playlist := [sampleTrack]
    current_track := some sampleTrack
    is_streaming := true
    stream_process := some ProcState.running
    task_active := true
    audio_chunks := [[1, 2, 3]]
    listeners := [7] }

/-- `sampleState` with the playlist deque filled to its 100-track bound. -/
def fullState : RadioState :=
  { sampleState with playlist := List.replicate 100 sampleTrack }

/-- A two-chunk production history for small positive witnesses. -/
def histW : List Chunk := [[5], [6]]

/-- A monotone two-read listener schedule over `histW`. -/
def snapsW : List Snap := [⟨true, 1, false⟩, ⟨true, 2, false⟩]

/-- A schedule instant with the engine idle (`is_streaming = False`). -/
def idleSnap : Snap := ⟨false, 0, true⟩

/-- A schedule instant with the engine streaming but the buffer drained
and the event wait timed out. -/
def starvedSnap : Snap := ⟨true, 0, true⟩

theorem length_dequeAppend (cap : Nat) (l : List α) (x : α) :
    (dequeAppend cap l x).length = min (l.length + 1) cap := by
  simp [dequeAppend]
  omega

/-- Retention semantics of a bounded deque: after appending `hist` in
order, exactly the last `min hist.length cap` elements remain, in order. -/
theorem appendAll_eq (cap : Nat) (hcap : 0 < cap) (hist : List α) :
    appendAll cap hist = hist.drop (hist.length - cap) := by
  induction hist using List.reverseRecOn with
  | nil => simp [appendAll]
  | append_singleton l x ih =>
      have h1 : appendAll cap (l ++ [x]) = dequeAppend cap (appendAll cap l) x := by
        simp [appendAll]
      rw [h1, ih, dequeAppend]
      have hlen : (List.drop (l.length - cap) l).length = min l.length cap := by
        simp only [List.length_drop]
        omega
      rw [List.drop_append_of_le_length (by rw [hlen]; omega), List.drop_drop,
          List.drop_append_of_le_length (by simp only [List.length_append,
            List.length_cons, List.length_nil]; omega)]
      have hamt : l.length - cap + ((List.drop (l.length - cap) l).length + 1 - cap)
          = (l ++ [x]).length - cap := by
        rw [hlen]
        simp only [List.length_append, List.length_cons, List.length_nil]
        omega
      rw [hamt]

theorem length_appendAll (cap : Nat) (hcap : 0 < cap) (hist : List α) :
    (appendAll cap hist).length = min hist.length cap := by
  rw [appendAll_eq cap hcap]
  simp only [List.length_drop]
  omega

theorem ringCapacity_pos : 0 < ringCapacity := by
  decide

theorem playlistCapacity_pos : 0 < playlistCapacity := by
  decide

theorem cexHist_length : cexHist.length = 501 := by
  simp [cexHist]

theorem bufferAt_length (hist : List Chunk) (n : Nat) (h : n ≤ hist.length) :
    (bufferAt hist n).length = min n ringCapacity := by
  rw [bufferAt, length_appendAll ringCapacity ringCapacity_pos]
  simp only [List.length_take]
  omega

theorem bufferAt_getD (hist : List Chunk) (n p : Nat) (h : n ≤ hist.length)
    (hp : p < min n ringCapacity) :
    (bufferAt hist n).getD p [] = hist.getD (seqOfPos p n) [] := by
  rw [bufferAt, appendAll_eq ringCapacity ringCapacity_pos]
  simp only [List.getD_eq_getElem?_getD, List.getElem?_drop]
  have htake : (hist.take n).length = n := by
    simp only [List.length_take]
    omega
  rw [htake]
  have hidx : n - ringCapacity + p = seqOfPos p n := by
    simp only [seqOfPos]
    omega
  rw [List.getElem?_take_of_lt (by omega), hidx]

theorem seqOfPos_mono {p p' n n' : Nat} (hp : p ≤ p') (hn : n ≤ n') :
    seqOfPos p n ≤ seqOfPos p' n' := by
  simp only [seqOfPos]
  omega

theorem seqOfPos_succ_lt {p n n' : Nat} (hn : n ≤ n') :
    seqOfPos p n < seqOfPos (p + 1) n' := by
  simp only [seqOfPos]
  omega

/-- Every audio delivery of the listener loop carries exactly the bytes
the producer appended at that sequence number of the shared history. -/
theorem delivered_mem (hist : List Chunk) (ns : List Snap)
    (hv : ∀ snap ∈ ns, snap.n ≤ hist.length) :
    ∀ p : Nat, ∀ q ∈ delivered hist p ns, q.2 = hist.getD q.1 [] := by
  induction ns with
  | nil =>
      intro p q hq
      simp [delivered] at hq
  | cons snap rest ih =>
      intro p q hq
      have hsnap : snap.n ≤ hist.length := hv snap (by simp)
      have hrest : ∀ s ∈ rest, Snap.n s ≤ hist.length := by
        intro s hs
        exact hv s (by simp [hs])
      rw [delivered] at hq
      by_cases hstr : snap.is_streaming
      · rw [if_pos hstr] at hq
        by_cases hlt : p < (bufferAt hist snap.n).length
        · rw [if_pos hlt] at hq
          rcases List.mem_cons.mp hq with hq | hq
          · subst hq
            exact bufferAt_getD hist snap.n p hsnap
              (by rw [bufferAt_length hist snap.n hsnap] at hlt; exact hlt)
          · exact ih hrest (p + 1) q hq
        · rw [if_neg hlt] at hq
          exact ih hrest p q hq
      · simp only [hstr] at hq
        simp at hq

/-- Lower bound on all later-delivered sequence numbers: once the
listener cursor is at `p` and every remaining observed producer count is
at least `n0`, every subsequent delivery has sequence at least
`seqOfPos p n0`. -/
theorem delivered_seq_lb (hist : List Chunk) (ns : List Snap) :
    ∀ p n0 : Nat, (∀ snap ∈ ns, n0 ≤ snap.n) →
      ∀ q ∈ delivered hist p ns, seqOfPos p n0 ≤ q.1 := by
  induction ns with
  | nil =>
      intro p n0 _ q hq
      simp [delivered] at hq
  | cons snap rest ih =>
      intro p n0 hlb q hq
      have hsnap : n0 ≤ snap.n := hlb snap (by simp)
      have hrest : ∀ s ∈ rest, n0 ≤ Snap.n s := by
        intro s hs
        exact hlb s (by simp [hs])
      rw [delivered] at hq
      by_cases hstr : snap.is_streaming
      · rw [if_pos hstr] at hq
        by_cases hlt : p < (bufferAt hist snap.n).length
        · rw [if_pos hlt] at hq
          rcases List.mem_cons.mp hq with hq | hq
          · subst hq
            exact seqOfPos_mono (Nat.le_refl p) hsnap
          · calc seqOfPos p n0 ≤ seqOfPos (p + 1) n0 :=
                  seqOfPos_mono (Nat.le_succ p) (Nat.le_refl n0)
              _ ≤ q.1 := ih (p + 1) n0 hrest q hq
        · rw [if_neg hlt] at hq
          exact ih p n0 hrest q hq
      · simp only [hstr] at hq
        simp at hq

/-- The audio outputs of `generate_live_audio` are exactly the chunks of
`delivered`, in order (silence fillers aside): `delivered` is the
generator's audio stream annotated with sequence numbers. -/
theorem generate_live_audio_delivered (hist : List Chunk) (ns : List Snap) :
    ∀ p : Nat,
      (generate_live_audio hist p ns).filterMap
          (fun o => match o with
            | StreamOut.audio c => some c
            | StreamOut.silence => none)
        = (delivered hist p ns).map Prod.snd := by
  induction ns with
  | nil =>
      intro p
      simp [generate_live_audio, delivered]
  | cons snap rest ih =>
      intro p
      rw [generate_live_audio, delivered]
      by_cases hstr : snap.is_streaming
      · rw [if_pos hstr, if_pos hstr]
        by_cases hlt : p < (bufferAt hist snap.n).length
        · rw [if_pos hlt, if_pos hlt]
          simp only [List.filterMap_cons, List.map_cons]
          rw [ih (p + 1)]
        · rw [if_neg hlt, if_neg hlt]
          by_cases hto : snap.timed_out
          · rw [if_pos hto]
            simp only [List.filterMap_cons]
            exact ih p
          · rw [if_neg hto]
            exact ih p
      · rw [if_neg hstr, if_neg hstr]
        simp

/-- C1 (amended): the ring buffer retains exactly the last
`min next_seq C` appended chunks, in order, and fetching is by deque
position, not by sequence number: position `p` returns exactly the bytes
appended at sequence `(next_seq - C) + p` while `p < min next_seq C`,
and reports not-available (`none`) outside that range.  In particular an
evicted sequence number used as a position silently returns the bytes of
a later sequence instead of `NotAvailable`. -/
theorem ringbuffer_retention (hist : List Chunk) (p : Nat) :
    bufferGet (appendAll ringCapacity hist) p =
      if p < min hist.length ringCapacity
      then hist[(hist.length - ringCapacity) + p]?
      else none := by
  rw [bufferGet, appendAll_eq ringCapacity ringCapacity_pos, List.getElem?_drop]
  split
  · rfl
  · apply List.getElem?_eq_none
    omega

/-- C1 counterexample: after appending the 501 distinct chunks of
`cexHist` (so `next_seq = 501`, window `[1, 501)`), fetching the evicted
sequence number 0 does not report not-available — it returns `[1]`, the
bytes appended at sequence 1; and fetching the in-window sequence number
499 returns the bytes appended at sequence 500, not those appended at
499.  This falsifies the claimed `[next_seq - C, next_seq)` fetch
semantics at a concrete input. -/
theorem ringbuffer_seq_fetch_cex :
    bufferGet (appendAll ringCapacity cexHist) 0 = some [1] ∧
    cexHist[0]? = some [0] ∧
    bufferGet (appendAll ringCapacity cexHist) 0 ≠ none ∧
    bufferGet (appendAll ringCapacity cexHist) 499 = some [500] ∧
    cexHist[499]? = some [499] := by
  have hbase : ∀ p : Nat, bufferGet (appendAll ringCapacity cexHist) p
      = cexHist[(cexHist.length - ringCapacity) + p]? := by
    intro p
    rw [bufferGet, appendAll_eq ringCapacity ringCapacity_pos, List.getElem?_drop]
  have h0 := hbase 0
  have h499 := hbase 499
  have hi0 : cexHist.length - ringCapacity + 0 = 1 := by
    rw [cexHist_length]
    norm_num [ringCapacity]
  have hi499 : cexHist.length - ringCapacity + 499 = 500 := by
    rw [cexHist_length]
    norm_num [ringCapacity]
  rw [hi0] at h0
  rw [hi499] at h499
  refine ⟨?_, ?_, ?_, ?_, ?_⟩
  · rw [h0]
    simp [cexHist]
  · simp [cexHist]
  · rw [h0]
    simp [cexHist]
  · rw [h499]
    simp [cexHist]
  · simp [cexHist]

/-- C2 (amended): the audio chunks delivered to a connected listener
carry strictly increasing production sequence numbers — the session
never re-delivers an earlier chunk and the order is monotonic — for
every production history and every schedule along which the observed
producer count is non-decreasing.  (The gap-freeness half of the
original claim is refuted separately: still-retrievable chunks can be
skipped once the buffer is full, see the counterexample.) -/
theorem listener_delivery_strictly_monotonic (hist : List Chunk) (p : Nat)
    (ns : List Snap) (hmono : List.Pairwise (fun a b => a.n ≤ b.n) ns) :
    List.Chain' (· < ·) ((delivered hist p ns).map Prod.fst) := by
  induction ns generalizing p with
  | nil =>
      simp [delivered]
  | cons snap rest ih =>
      have hpw := List.pairwise_cons.mp hmono
      rw [delivered]
      by_cases hstr : snap.is_streaming
      · rw [if_pos hstr]
        by_cases hlt : p < (bufferAt hist snap.n).length
        · rw [if_pos hlt, List.map_cons]
          apply List.Chain'.cons' (ih (p + 1) hpw.2)
          intro y hy
          have hmem : y ∈ (delivered hist (p + 1) rest).map Prod.fst :=
            List.mem_of_mem_head? hy
          obtain ⟨q, hq, rfl⟩ := List.mem_map.mp hmem
          have hlb := delivered_seq_lb hist rest (p + 1) snap.n
            (fun s hs => hpw.1 s hs) q hq
          exact Nat.lt_of_lt_of_le (seqOfPos_succ_lt (Nat.le_refl snap.n)) hlb
        · rw [if_neg hlt]
          exact ih p hpw.2
      · rw [if_neg hstr]
        simp

theorem listener_delivery_strictly_monotonic_witness :
    List.Chain' (· < ·) ((delivered histW 0 snapsW).map Prod.fst) :=
  listener_delivery_strictly_monotonic histW 0 snapsW (by decide)

/-- C2 counterexample: over the history `cexHist`, a listener that joins
at position 0, reads once when 500 chunks exist and once more after one
further append receives the chunks of sequences 0 and 2 — sequence 1 is
skipped even though it was still retrievable in the buffer (the retained
window at the second read is `[1, 501)`).  The delivered stream is
therefore not gap-free. -/
theorem listener_gap_cex :
    (delivered cexHist 0 cexSnaps).map Prod.fst = [0, 2] ∧
    (1 : Nat) ∉ (delivered cexHist 0 cexSnaps).map Prod.fst ∧
    501 - ringCapacity ≤ 1 ∧ 1 < 501 := by
  have hl1 : (bufferAt cexHist 500).length = 500 := by
    rw [bufferAt_length cexHist 500 (by rw [cexHist_length]; omega)]
    norm_num [ringCapacity]
  have hl2 : (bufferAt cexHist 501).length = 500 := by
    rw [bufferAt_length cexHist 501 (by rw [cexHist_length])]
    norm_num [ringCapacity]
  have heval : (delivered cexHist 0 cexSnaps).map Prod.fst = [0, 2] := by
    simp only [cexSnaps, delivered, hl1, hl2]
    norm_num [seqOfPos, ringCapacity]
  refine ⟨heval, ?_, by norm_num [ringCapacity], by norm_num⟩
  rw [heval]
  norm_num

/-- C3: the same-program guarantee — any two listener sessions, joining
at arbitrary positions and reading along arbitrary valid schedules over
the same production history, receive byte-identical chunk contents for
every sequence number both observe. -/
theorem same_program_guarantee (hist : List Chunk) (p1 p2 : Nat)
    (ns1 ns2 : List Snap)
    (h1 : ∀ snap ∈ ns1, snap.n ≤ hist.length)
    (h2 : ∀ snap ∈ ns2, snap.n ≤ hist.length)
    (s : Nat) (c1 c2 : Chunk)
    (hc1 : (s, c1) ∈ delivered hist p1 ns1)
    (hc2 : (s, c2) ∈ delivered hist p2 ns2) :
    c1 = c2 := by
  have e1 := delivered_mem hist ns1 h1 p1 (s, c1) hc1
  have e2 := delivered_mem hist ns2 h2 p2 (s, c2) hc2
  simp only at e1 e2
  rw [e1, e2]

theorem same_program_guarantee_witness : ([5] : Chunk) = [5] :=
  same_program_guarantee histW 0 0 [⟨true, 2, false⟩] snapsW
    (by decide) (by decide) 0 [5] [5] (by decide) (by decide)

/-- C4 (amended): after `stop_continuous_stream` completes the decode
process is terminated, `current_track` is `None` and streaming is off —
but the ring buffer is NOT left intact: `audio_chunks` is cleared.  The
playlist and the listener set are untouched by this function. -/
theorem stop_effect (s : RadioState) :
    (stop_continuous_stream s).is_streaming = false ∧
    (stop_continuous_stream s).current_track = none ∧
    (stop_continuous_stream s).stream_process = terminate s.stream_process ∧
    (stop_continuous_stream s).audio_chunks = [] ∧
    (stop_continuous_stream s).playlist = s.playlist ∧
    (stop_continuous_stream s).listeners = s.listeners :=
  ⟨rfl, rfl, rfl, rfl, rfl, rfl⟩

/-- C4 counterexample: on a concrete state with a non-empty buffer, the
buffer after stop differs from the buffer before stop —
`stop_continuous_stream` executes `radio_state.audio_chunks.clear()`, so
the chunk collection is not unchanged. -/
theorem stop_buffer_cleared_cex :
    (stop_continuous_stream sampleState).audio_chunks ≠ sampleState.audio_chunks := by
  decide

/-- C5 (amended): the `/api/stream` endpoint registers a listener in
every playback phase, and while `is_streaming` holds with no chunk
available at the event-wait timeout the generator yields a silence
filler that keeps the connection alive; but when the engine is idle
(`is_streaming` false) the generator terminates immediately — ending the
response stream — instead of serving silence. -/
theorem stream_endpoint_behavior (lid : Nat) (s : RadioState)
    (hist : List Chunk) (p : Nat) (snap : Snap) (rest : List Snap) :
    lid ∈ (stream_radio lid s).listeners ∧
    (snap.is_streaming = true → (bufferAt hist snap.n).length ≤ p →
      snap.timed_out = true →
      generate_live_audio hist p (snap :: rest) =
        StreamOut.silence :: generate_live_audio hist p rest) ∧
    (snap.is_streaming = false →
      generate_live_audio hist p (snap :: rest) = []) := by
  refine ⟨?_, ?_, ?_⟩
  · by_cases h : lid ∈ s.listeners <;> simp [stream_radio, h]
  · intro hstr hlen hto
    rw [generate_live_audio, if_pos hstr, if_neg (by omega), if_pos hto]
  · intro hstr
    rw [generate_live_audio, if_neg (by simp [hstr])]

theorem stream_endpoint_behavior_witness :
    (7 : Nat) ∈ (stream_radio 7 sampleState).listeners ∧
    generate_live_audio [] 0 [starvedSnap] =
      StreamOut.silence :: generate_live_audio [] 0 [] := by
  have h := stream_endpoint_behavior 7 sampleState [] 0 starvedSnap []
  exact ⟨h.1, h.2.1 rfl (by decide) rfl⟩

/-- C5 counterexample: a listener connected while the engine is idle
(`is_streaming` false) receives no silence filler at all — the generator
returns the empty stream, i.e. the response ends, contradicting the
claim that silence is served while idle. -/
theorem idle_no_silence_cex :
    generate_live_audio [] 0 [idleSnap] = [] ∧
    StreamOut.silence ∉ generate_live_audio [] 0 [idleSnap] := by
  decide

/-- No branch of the producer loop body raises: the body always returns
`Except.ok`, with the `is_streaming` flag unchanged. -/
theorem radio_loop_body_never_errors (resolve : String → Option String)
    (decode : String → List Chunk) (s : RadioState) :
    ∃ s1, radio_loop_body resolve decode s = Except.ok s1 ∧
      s1.is_streaming = s.is_streaming := by
  rw [radio_loop_body]
  by_cases h : s.is_streaming = false
  · rw [if_pos h]
    exact ⟨s, rfl, rfl⟩
  · rw [if_neg h]
    cases hp : s.playlist with
    | nil => exact ⟨s, rfl, rfl⟩
    | cons t rest =>
        dsimp only
        cases hr : resolve t.url with
        | some url => exact ⟨_, rfl, rfl⟩
        | none => exact ⟨_, rfl, rfl⟩

theorem step_preserves_is_streaming (resolve : String → Option String)
    (decode : String → List Chunk) (s : RadioState) :
    (continuous_radio_step (radio_loop_body resolve decode) s).is_streaming
      = s.is_streaming := by
  obtain ⟨s1, hok, hstr⟩ := radio_loop_body_never_errors resolve decode s
  rw [continuous_radio_step, hok]
  exact hstr

theorem iterate_preserves_is_streaming (resolve : String → Option String)
    (decode : String → List Chunk) (k : Nat) (s : RadioState) :
    ((continuous_radio_step (radio_loop_body resolve decode))^[k] s).is_streaming
      = s.is_streaming := by
  induction k generalizing s with
  | zero => rfl
  | succ k ih =>
      rw [Function.iterate_succ_apply, ih]
      exact step_preserves_is_streaming resolve decode s

/-- C6: when the multi-source resolver returns no URL for the dequeued
track, the loop body returns normally (`Except.ok`, never an exception):
the failed track is put back at the end of the playlist, the buffer and
the streaming flag are untouched, and the loop proceeds to the next
track; iterating the guarded loop step any number of times — under this
or any other resolver behaviour — leaves the loop live
(`is_streaming` stays true). -/
theorem resolution_failure_recovery (resolve : String → Option String)
    (decode : String → List Chunk) (s : RadioState) (track : Track)
    (rest : List Track) (k : Nat)
    (hs : s.is_streaming = true) (hp : s.playlist = track :: rest)
    (hres : resolve track.url = none) :
    radio_loop_body resolve decode s =
      Except.ok { s with playlist := dequeAppend playlistCapacity rest track,
                         current_track := some track } ∧
    ((continuous_radio_step (radio_loop_body resolve decode))^[k] s).is_streaming
      = true := by
  constructor
  · rw [radio_loop_body, if_neg (by rw [hs]; simp), hp]
    simp only [hres]
  · rw [iterate_preserves_is_streaming resolve decode k s]
    exact hs

theorem resolution_failure_recovery_witness :
    radio_loop_body (fun _ => none) (fun _ => []) sampleState =
      Except.ok { sampleState with
        playlist := dequeAppend playlistCapacity [] sampleTrack,
        current_track := some sampleTrack } ∧
    ((continuous_radio_step (radio_loop_body (fun _ => none) (fun _ => [])))^[3]
        sampleState).is_streaming = true :=
  resolution_failure_recovery (fun _ => none) (fun _ => []) sampleState
    sampleTrack [] 3 rfl rfl rfl

/-- C7: the sequence number of the initial listener cursor equals
`max(0, latest_seq - 10)` (with `latest_seq = next_seq = n`, the number
of chunks produced), and once at least one chunk has been produced it is
clamped inside the retained window: `latest_seq - C ≤ cursor < latest_seq`.
The code picks `buffer_position = max(0, len(audio_chunks) - 10)`;
composed with the position-to-sequence shift this is exactly `n - 10`. -/
theorem listener_join_position (hist : List Chunk) (n : Nat)
    (hn : n ≤ hist.length) (h1 : 1 ≤ n) :
    seqOfPos (joinPosition (bufferAt hist n).length) n = n - 10 ∧
    n - ringCapacity ≤ seqOfPos (joinPosition (bufferAt hist n).length) n ∧
    seqOfPos (joinPosition (bufferAt hist n).length) n < n := by
  rw [bufferAt_length hist n hn]
  simp only [seqOfPos, joinPosition, ringCapacity]
  omega

theorem listener_join_position_witness :
    seqOfPos (joinPosition (bufferAt histW 1).length) 1 = 1 - 10 ∧
    1 - ringCapacity ≤ seqOfPos (joinPosition (bufferAt histW 1).length) 1 ∧
    seqOfPos (joinPosition (bufferAt histW 1).length) 1 < 1 :=
  listener_join_position histW 1 (by decide) (by decide)

theorem terminate_idem (p : Option ProcState) :
    terminate (terminate p) = terminate p := by
  cases p <;> rfl

/-- C8: stopping is idempotent — a second `stop` (both the endpoint and
the underlying `stop_continuous_stream`) reproduces exactly the state of
the first, with `is_streaming` false and no current track; terminating
an already-terminated process and cancelling an already-cancelled task
are no-ops, so the second call completes normally. -/
theorem stop_idempotent (s : RadioState) :
    stop_stream (stop_stream s) = stop_stream s ∧
    stop_continuous_stream (stop_continuous_stream s)
      = stop_continuous_stream s ∧
    (stop_stream s).is_streaming = false ∧
    (stop_stream s).current_track = none := by
  refine ⟨?_, ?_, rfl, rfl⟩ <;>
    simp [stop_stream, stop_continuous_stream, terminate_idem]

/-- C9: after `POST /api/stop` the playlist queue is empty, the audio
buffer is empty, streaming is off and there is no current track, while
the listener set is exactly what it was before the call. -/
theorem stop_endpoint_frame (s : RadioState) :
    (stop_stream s).playlist = [] ∧
    (stop_stream s).audio_chunks = [] ∧
    (stop_stream s).is_streaming = false ∧
    (stop_stream s).current_track = none ∧
    (stop_stream s).listeners = s.listeners :=
  ⟨rfl, rfl, rfl, rfl, rfl⟩

theorem start_playlist_frame (s : RadioState) :
    (start_continuous_stream s).playlist = s.playlist := by
  rw [start_continuous_stream]
  split <;> rfl

/-- C10: the playlist bound of 100 entries is an invariant of enqueuing:
`/api/play` into a playlist already holding at most 100 tracks leaves at
most 100 tracks, and enqueuing into a full playlist of exactly 100
succeeds while silently evicting the oldest pending track. -/
theorem playlist_bounded (s : RadioState) (t : Track)
    (h : s.playlist.length ≤ playlistCapacity) :
    (add_to_playlist s t).playlist.length ≤ playlistCapacity ∧
    (s.playlist.length = playlistCapacity →
      (add_to_playlist s t).playlist = s.playlist.drop 1 ++ [t] ∧
      (add_to_playlist s t).playlist.length = playlistCapacity) := by
  have hpl : (add_to_playlist s t).playlist
      = dequeAppend playlistCapacity s.playlist t := by
    rw [add_to_playlist]
    split
    · rfl
    · rw [start_playlist_frame]
  constructor
  · rw [hpl, length_dequeAppend]
    omega
  · intro h100
    have hcap := playlistCapacity_pos
    constructor
    · rw [hpl, dequeAppend, h100]
      have hone : playlistCapacity + 1 - playlistCapacity = 1 := by omega
      rw [hone, List.drop_append_of_le_length (by omega)]
    · rw [hpl, length_dequeAppend, h100]
      omega

theorem playlist_bounded_witness :
    (add_to_playlist fullState sampleTrack).playlist.length ≤ playlistCapacity ∧
    (add_to_playlist fullState sampleTrack).playlist =
      fullState.playlist.drop 1 ++ [sampleTrack] := by
  have h := playlist_bounded fullState sampleTrack (by decide)
  exact ⟨h.1, (h.2 (by decide)).1⟩

end VirusRadio
